import Mathlib

/-!
Verification development for the Mirroapp kiosk orchestration core.

The definitions below are a shallow embedding of three components of the
TypeScript source:

* `Mirro.AI` — the `AIProcessor` bounded-concurrency generation queue and its
  deterministic style-transform pipeline (frontend/src/App.tsx).
* `Mirro.Printer` — the `PrinterQueue` serial retrying print state machine
  and its `spawnCommand` dispatch wrapper.
* `Mirro.Camera` — the `CameraService` live-view broadcaster together with
  the WebSocket/HTTP wiring that drives it.

JavaScript numbers are modelled as rationals (`ℚ`), byte buffers as opaque
naturals, and asynchronous interleavings as explicit event lists acting on a
state record through a step function.
-/

namespace Mirro.AI

/-- The eight style presets of `StyleType` in App.tsx. -/
inductive StyleType
  | Vogue
  | Cartoon
  | Cyberpunk
  | Anime
  | PopArt
  | Freestyle
  | Studio
  | Cinematic
deriving DecidableEq, Repr

/-- One entry of the `STYLE_PRESETS` record: saturation, contrast, gamma,
optional blur sigma, optional RGB tint. -/
structure StylePreset where
  saturation : ℚ
  contrast : ℚ
  gamma : ℚ
  blur : Option ℚ
  tint : Option (ℕ × ℕ × ℕ)
deriving DecidableEq, Repr

/-- The `STYLE_PRESETS` table, literal values from App.tsx. -/
def STYLE_PRESETS : StyleType → StylePreset
  | .Vogue => ⟨105/100, 110/100, 95/100, none, none⟩
  | .Cartoon => ⟨140/100, 125/100, 80/100, some (50/100), none⟩
  | .Cyberpunk => ⟨150/100, 130/100, 90/100, none, some (120, 60, 200)⟩
  | .Anime => ⟨135/100, 115/100, 85/100, none, none⟩
  | .PopArt => ⟨160/100, 140/100, 70/100, none, none⟩
  | .Freestyle => ⟨1, 1, 1, none, none⟩
  | .Studio => ⟨110/100, 120/100, 90/100, none, none⟩
  | .Cinematic => ⟨95/100, 125/100, 105/100, none, some (255, 130, 60)⟩

/-- The style-specific post effect chosen at the end of `applyStyle`:
`Cartoon` gets median/sharpen/threshold, `Cyberpunk` gets
sharpen/linear/hue-shift, every other style gets none. -/
inductive PostEffect
  | noEffect
  | cartoonEdges
  | cyberpunkShift
deriving DecidableEq, Repr

/-- The full parameter set the `applyStyle` pipeline feeds to sharp for one
variation.  Image bytes are irrelevant to the parameters, so they are not
modelled; every numeric field is the exact rational the source computes. -/
structure StyleParams where
  variationFactor : ℚ
  saturation : ℚ
  brightness : ℚ
  linearA : ℚ
  linearB : ℚ
  gammaValue : ℚ
  blurSigma : Option ℚ
  tintOverlay : Option (ℕ × ℕ × ℕ × ℚ)
  post : PostEffect
  watermarkStyle : StyleType
  watermarkPrompt : Option String
deriving DecidableEq, Repr

/-- `AIProcessor.applyStyle` (App.tsx): the deterministic per-variation
parameter computation.  `seed` is the loop index `i` of `generate`. -/
def applyStyle (style : StyleType) (intensity : ℚ) (seed : ℕ)
    (prompt : Option String) : StyleParams :=
  let preset := STYLE_PRESETS style
  let variationFactor : ℚ := 1 + (((seed * 13) % 7 : ℕ) : ℚ) / 20
  { variationFactor := variationFactor
    saturation := preset.saturation * (1 + intensity * (20/100)) * variationFactor
    brightness := 1 + intensity * (5/100)
    linearA := preset.contrast
    linearB := -(preset.contrast - 1) * 32
    gammaValue := preset.gamma
    blurSigma := preset.blur.map (fun b => b * intensity + (seed : ℚ) * (2/100))
    tintOverlay := preset.tint.map (fun t => (t.1, t.2.1, t.2.2, (15/100) * intensity))
    post :=
      if style = .Cartoon then .cartoonEdges
      else if style = .Cyberpunk then .cyberpunkShift
      else .noEffect
    watermarkStyle := style
    watermarkPrompt := prompt.map (fun p => p.take 120) }

/-- `AIJobRequest` (App.tsx): all fields optional as in the source. -/
structure AIJobRequest where
  sourcePath : Option String
  base64 : Option String
  prompt : Option String
  style : Option StyleType
  intensity : Option ℚ
  variations : Option ℤ
deriving DecidableEq, Repr

/-- The options `AIProcessor` is constructed with (the fields `generate`
reads). -/
structure AIProcessorOptions where
  maxParallelJobs : ℕ
  defaultStyle : StyleType
deriving DecidableEq, Repr

/-- The two failures `generate` can raise before producing output:
the missing-source rejection, and a source-load (I/O) failure. -/
inductive AIError
  | missingSource
  | loadFailed
deriving DecidableEq, Repr

/-- The portion of `AIJobResult` the parameters determine: one entry of
`outputs` and one entry of `previews` is pushed per loop iteration. -/
structure AIJobResult where
  outputs : List StyleParams
  previews : List StyleParams
  style : StyleType
  prompt : Option String
deriving DecidableEq, Repr

/-- Effective variation count:
`Math.max(1, Math.min(5, request.variations ?? 1))`. -/
def effVariations (r : AIJobRequest) : ℤ :=
  max 1 (min 5 (r.variations.getD 1))

/-- Effective intensity:
`Math.min(1, Math.max(0, request.intensity ?? 0.7))`. -/
def effIntensity (r : AIJobRequest) : ℚ :=
  min 1 (max 0 (r.intensity.getD (70/100)))

/-- `AIProcessor.generate` (App.tsx).  `load` abstracts the result of
`loadSource` (`some` buffer on success, `none` when the read raises); the
source check, clamping and per-variation loop follow the code line by
line. -/
def generate (opts : AIProcessorOptions) (load : Option ℕ)
    (r : AIJobRequest) : Except AIError AIJobResult :=
  if r.sourcePath.isNone && r.base64.isNone then
    .error .missingSource
  else
    let style := r.style.getD opts.defaultStyle
    let variations := effVariations r
    let intensity := effIntensity r
    match load with
    | none => .error .loadFailed
    | some _ =>
      let outs := (List.range variations.toNat).map
        (fun i => applyStyle style intensity i r.prompt)
      .ok { outputs := outs, previews := outs, style := style, prompt := r.prompt }

/-- State of the `AIProcessor` admission machinery: the pending FIFO
(`this.queue`, jobs named by their enqueue sequence number), the
`activeJobs` counter, the admission history (jobs in the order the queue
admitted them), and the next sequence number. -/
structure QState where
  maxParallel : ℕ
  pending : List ℕ
  active : ℕ
  admitted : List ℕ
  nextId : ℕ
deriving DecidableEq, Repr

/-- `AIProcessor.processQueue`: return early when the limit is reached,
otherwise shift the queue head, increment `activeJobs` and start it (one
admission per call, as in the source). -/
def processQueue (s : QState) : QState :=
  if s.maxParallel ≤ s.active then s
  else
    match s.pending with
    | [] => s
    | j :: rest =>
      { s with pending := rest, active := s.active + 1,
               admitted := s.admitted ++ [j] }

/-- `AIProcessor.enqueue`: push the request onto the queue, then run
`processQueue` once. -/
def enqueueStep (s : QState) : QState :=
  processQueue { s with pending := s.pending ++ [s.nextId], nextId := s.nextId + 1 }

/-- The `.finally` continuation of an admitted job: decrement `activeJobs`
and run `processQueue` once more (the `setImmediate` callback).  Only
enabled while a job is active. -/
def finishStep (s : QState) : QState :=
  if s.active = 0 then s else processQueue { s with active := s.active - 1 }

/-- External events of the generation queue: an `enqueue` call or the
completion (resolution or rejection) of one active job. -/
inductive QEvent
  | enq
  | fin
deriving DecidableEq, Repr

/-- One event of the queue. -/
def qStep (s : QState) : QEvent → QState
  | .enq => enqueueStep s
  | .fin => finishStep s

/-- A whole interleaving of enqueues and completions. -/
def qRun (s : QState) (evs : List QEvent) : QState :=
  evs.foldl qStep s

/-- The freshly constructed processor: empty queue, zero active jobs. -/
def qInit (maxParallel : ℕ) : QState :=
  ⟨maxParallel, [], 0, [], 0⟩

/-- Inductive invariant of the admission machinery: the active counter
never exceeds the limit, a non-empty pending queue means every slot is
busy, and the admission history followed by the pending queue lists the
enqueued jobs in submission order. -/
def QInv (s : QState) : Prop :=
  s.active ≤ s.maxParallel ∧
  (s.pending ≠ [] → s.active = s.maxParallel) ∧
  s.admitted ++ s.pending = List.range s.nextId

end Mirro.AI

namespace Mirro.Printer

/-- Job status (`PrintStatus` in the source). -/
inductive PrintStatus
  | queued
  | printing
  | completed
  | error
deriving DecidableEq, Repr

/-- How a `spawnCommand` invocation can fail: a non-zero (or null) exit
code, or an `error` event whose `code` is not ENOENT. -/
inductive SpawnFailure
  | nonZeroExit (code : Option ℤ)
  | spawnError (code : Option String)
deriving DecidableEq, Repr

/-- What the job's `error` field can hold. -/
inductive PrintError
  | fileNotFound
  | dispatch (e : SpawnFailure)
deriving DecidableEq, Repr

/-- The terminating event of one spawned child process: either an `exit`
event carrying the (possibly null) exit code, or an `error` event carrying
the errno code string. -/
inductive SpawnEvent
  | exited (code : Option ℤ)
  | errored (code : Option String)
deriving DecidableEq, Repr

/-- `PrinterQueue.spawnCommand`: resolve on exit code 0; reject on any
other exit code; on an `error` event, resolve when the errno code is
ENOENT (dev-environment escape hatch), reject otherwise. -/
def spawnCommand : SpawnEvent → Except SpawnFailure Unit
  | .exited code => if code = some 0 then .ok () else .error (.nonZeroExit code)
  | .errored code =>
    if code = some "ENOENT" then .ok () else .error (.spawnError code)

/-- One print job's mutable state.  `fileOk` abstracts whether
`access(job.filePath)` succeeds at processing time; identity, copies and
timestamps play no role in the claims and are omitted. -/
structure PJob where
  fileOk : Bool
  status : PrintStatus
  attempts : ℕ
  error : Option PrintError
deriving DecidableEq, Repr

/-- A freshly enqueued job (`status: queued, attempts: 0`). -/
def freshJob (fileOk : Bool) : PJob :=
  ⟨fileOk, .queued, 0, none⟩

/-- `PrinterQueue.processJob`, parameterised by the retry limit
`queueRetries` and the outcome `d` of this attempt's dispatch.  Returns
the updated job and whether it was pushed back onto the queue.  The
structure mirrors the source: set `printing`; missing file goes straight
to `error`/`File not found`; a successful dispatch completes the job and
clears its error; a failed dispatch increments `attempts` and either
requeues (`attempts ≤ queueRetries`) or terminates in `error`. -/
def processJob (queueRetries : ℕ) (d : Except SpawnFailure Unit)
    (j : PJob) : PJob × Bool :=
  let j1 := { j with status := .printing }
  if j1.fileOk = false then
    ({ j1 with status := .error, error := some .fileNotFound }, false)
  else
    match d with
    | .ok _ => ({ j1 with status := .completed, error := none }, false)
    | .error e =>
      let j2 := { j1 with attempts := j1.attempts + 1, error := some (.dispatch e) }
      if j2.attempts ≤ queueRetries then
        ({ j2 with status := .queued }, true)
      else
        ({ j2 with status := .error }, false)

/-- The drain of a single job through the `tick` loop: process it, and as
long as it is requeued, process it again with the next dispatch outcome
`d k`.  Returns the number of `queued → printing` transitions performed
and the job's final state.  `fuel` dominates the recursion; every claim
instantiates it above the retry bound. -/
def drain (queueRetries : ℕ) (d : ℕ → Except SpawnFailure Unit)
    (j : PJob) (k : ℕ) : ℕ → ℕ × PJob
  | 0 => (0, j)
  | fuel + 1 =>
    let r := processJob queueRetries (d k) j
    if r.2 then
      let rec' := drain queueRetries d r.1 (k + 1) fuel
      (rec'.1 + 1, rec'.2)
    else
      (1, r.1)

/-- Whole-queue state: the pending FIFO (`this.queue`) and the jobs that
have left it (completed or terminal error, still held in the id map). -/
structure PQState where
  pending : List PJob
  settled : List PJob
deriving DecidableEq, Repr

/-- External events of the print queue: enqueue a fresh job for a file
that does or does not exist, or let the drain loop process the queue head
with a given dispatch outcome. -/
inductive PQEvent
  | enq (fileOk : Bool)
  | proc (d : Except SpawnFailure Unit)
deriving Repr

/-- One event of the print queue.  `enq` appends a fresh job; `proc`
shifts the head, runs `processJob` and either appends the job back to the
tail or settles it. -/
def pqStep (queueRetries : ℕ) (s : PQState) : PQEvent → PQState
  | .enq fileOk => { s with pending := s.pending ++ [freshJob fileOk] }
  | .proc d =>
    match s.pending with
    | [] => s
    | j :: rest =>
      let r := processJob queueRetries d j
      if r.2 then { s with pending := rest ++ [r.1] }
      else { s with pending := rest, settled := s.settled ++ [r.1] }

/-- A run of the print queue from the empty state. -/
def pqRun (queueRetries : ℕ) (evs : List PQEvent) : PQState :=
  evs.foldl (pqStep queueRetries) ⟨[], []⟩

end Mirro.Printer

namespace Mirro.Camera

/-- State of `CameraService` plus the WebSocket wiring of the backend
entry point: the number of registered live-view listeners (one per open
socket), whether the `setInterval` timer is installed, the `liveViewEnabled`
flag, the cached latest frame (bytes abstracted as `ℕ`), and two counters
of driver `getLiveFrame` calls — those made by the periodic timer and those
made on demand by `getLatestFrame`. -/
structure CamState where
  subscribers : ℕ
  timerOn : Bool
  liveViewEnabled : Bool
  latestFrame : Option ℕ
  tickFetches : ℕ
  demandFetches : ℕ
deriving DecidableEq, Repr

/-- `CameraService.startLiveView`: if the interval already exists, only
set the flag; otherwise install the timer and set the flag. -/
def startLiveView (s : CamState) : CamState :=
  if s.timerOn then { s with liveViewEnabled := true }
  else { s with timerOn := true, liveViewEnabled := true }

/-- `CameraService.stopLiveView`: clear the interval if present and reset
the flag. -/
def stopLiveView (s : CamState) : CamState :=
  { s with timerOn := false, liveViewEnabled := false }

/-- `CameraService.getLatestFrame`, with `fetch` the outcome of the
on-demand `driver.getLiveFrame()` call (`some` frame, or `none` when it
throws): return the cache when non-empty; otherwise fetch once, caching on
success and returning `none` on failure. -/
def getLatestFrame (fetch : Option ℕ) (s : CamState) : Option ℕ × CamState :=
  match s.latestFrame with
  | some f => (some f, s)
  | none =>
    let s1 := { s with demandFetches := s.demandFetches + 1 }
    match fetch with
    | some b => (some b, { s1 with latestFrame := some b })
    | none => (none, s1)

/-- System-level events of the broadcaster:

* `connect` — a WebSocket client connects: `registerLiveViewClient` then
  `startLiveView` (backend entry point).
* `disconnect` — a client socket closes: `unregisterLiveViewClient`, and
  `stopLiveView` when no client remains.
* `tick f` — one firing of the interval callback; `f` is the driver frame
  (`none` when `getLiveFrame` throws; the error is logged and the loop
  continues).
* `captureReq resumeLive f` — the capture endpoint: `camera.capture()`
  stores the captured buffer as the latest frame, then `startLiveView`
  when the request asks to resume live view.
* `getLive f` — the HTTP live endpoint calling `getLatestFrame` with
  on-demand outcome `f`.
* `shutdown` — graceful shutdown: `stopLiveView`. -/
inductive CamEvent
  | connect
  | disconnect
  | tick (f : Option ℕ)
  | captureReq (resumeLive : Bool) (f : ℕ)
  | getLive (f : Option ℕ)
  | shutdown
deriving DecidableEq, Repr

/-- One system event. -/
def camStep (s : CamState) : CamEvent → CamState
  | .connect => startLiveView { s with subscribers := s.subscribers + 1 }
  | .disconnect =>
    if s.subscribers = 0 then s
    else
      let s1 := { s with subscribers := s.subscribers - 1 }
      if s1.subscribers = 0 then stopLiveView s1 else s1
  | .tick f =>
    if s.timerOn then
      let s1 := { s with tickFetches := s.tickFetches + 1 }
      match f with
      | some b => { s1 with latestFrame := some b }
      | none => s1
    else s
  | .captureReq resumeLive f =>
    let s1 := { s with latestFrame := some f }
    if resumeLive then startLiveView s1 else s1
  | .getLive f => (getLatestFrame f s).2
  | .shutdown => stopLiveView s

/-- A run of the broadcaster system. -/
def camRun (s : CamState) (evs : List CamEvent) : CamState :=
  evs.foldl camStep s

/-- Events that can legitimately restart periodic fetching: a new
subscriber connecting, or an explicit capture request. -/
def CamEvent.restartsLiveView : CamEvent → Bool
  | .connect => true
  | .captureReq _ _ => true
  | _ => false

end Mirro.Camera

namespace Mirro.AI

theorem processQueue_of_ge {s : QState} (h : s.maxParallel ≤ s.active) :
    processQueue s = s := by
  unfold processQueue
  rw [if_pos h]

theorem processQueue_nil {s : QState} (h : s.pending = []) :
    processQueue s = s := by
  unfold processQueue
  split
  · rfl
  · rw [h]

theorem processQueue_admit {s : QState} {j : ℕ} {rest : List ℕ}
    (h : s.active < s.maxParallel) (hp : s.pending = j :: rest) :
    processQueue s =
      { s with pending := rest, active := s.active + 1,
               admitted := s.admitted ++ [j] } := by
  unfold processQueue
  rw [if_neg (Nat.not_le.mpr h), hp]

theorem processQueue_maxParallel (s : QState) :
    (processQueue s).maxParallel = s.maxParallel := by
  unfold processQueue
  split
  · rfl
  · split <;> rfl

theorem qStep_maxParallel (s : QState) (e : QEvent) :
    (qStep s e).maxParallel = s.maxParallel := by
  cases e
  · show (enqueueStep s).maxParallel = s.maxParallel
    rw [enqueueStep, processQueue_maxParallel]
  · show (finishStep s).maxParallel = s.maxParallel
    rw [finishStep]
    split
    · rfl
    · rw [processQueue_maxParallel]

theorem qInv_enqueueStep {s : QState} (h : QInv s) : QInv (enqueueStep s) := by
  obtain ⟨h1, h2, h3⟩ := h
  unfold enqueueStep processQueue
  dsimp only
  split_ifs with hle
  · refine ⟨h1, fun _ => Nat.le_antisymm h1 hle, ?_⟩
    dsimp only
    rw [← List.append_assoc, h3, List.range_succ]
  · have hp : s.pending = [] := by
      by_contra hne
      exact hle (Nat.le_of_eq (h2 hne).symm)
    have hadm : s.admitted = List.range s.nextId := by simpa [hp] using h3
    rw [hp]
    simp only [List.nil_append]
    refine ⟨?_, fun hc => absurd rfl hc, ?_⟩
    · show s.active + 1 ≤ s.maxParallel
      omega
    · show s.admitted ++ [s.nextId] ++ [] = List.range (s.nextId + 1)
      simp [hadm, List.range_succ]

theorem qInv_finishStep {s : QState} (h : QInv s) : QInv (finishStep s) := by
  obtain ⟨h1, h2, h3⟩ := h
  unfold finishStep processQueue
  dsimp only
  split_ifs with hz hle
  · exact ⟨h1, h2, h3⟩
  · refine ⟨?_, ?_, h3⟩
    · show s.active - 1 ≤ s.maxParallel
      omega
    · intro _
      show s.active - 1 = s.maxParallel
      omega
  · rcases hp : s.pending with _ | ⟨j, rest⟩
    · refine ⟨?_, fun hc => absurd rfl hc, ?_⟩
      · show s.active - 1 ≤ s.maxParallel
        omega
      · show s.admitted ++ [] = List.range s.nextId
        simpa [hp] using h3
    · have hmax : s.active = s.maxParallel := h2 (by rw [hp]; simp)
      refine ⟨?_, ?_, ?_⟩
      · show s.active - 1 + 1 ≤ s.maxParallel
        omega
      · intro _
        show s.active - 1 + 1 = s.maxParallel
        omega
      · show s.admitted ++ [j] ++ rest = List.range s.nextId
        rw [List.append_assoc, List.singleton_append, ← hp]
        exact h3

theorem qInv_qStep {s : QState} (h : QInv s) (e : QEvent) : QInv (qStep s e) := by
  cases e
  · exact qInv_enqueueStep h
  · exact qInv_finishStep h

theorem qInv_foldl {s : QState} (h : QInv s) (evs : List QEvent) :
    QInv (evs.foldl qStep s) := by
  induction evs generalizing s with
  | nil => exact h
  | cons e evs ih => exact ih (qInv_qStep h e)

theorem qInv_qInit (N : ℕ) : QInv (qInit N) := by
  refine ⟨Nat.zero_le _, fun hc => absurd rfl hc, by simp [qInit]⟩

theorem qInv_qRun (N : ℕ) (evs : List QEvent) : QInv (qRun (qInit N) evs) :=
  qInv_foldl (qInv_qInit N) evs

theorem qFoldl_maxParallel (evs : List QEvent) :
    ∀ s : QState, (evs.foldl qStep s).maxParallel = s.maxParallel := by
  induction evs with
  | nil => intro s; rfl
  | cons e evs ih =>
    intro s
    rw [List.foldl_cons, ih, qStep_maxParallel]

theorem qRun_maxParallel (N : ℕ) (evs : List QEvent) :
    (qRun (qInit N) evs).maxParallel = N := by
  rw [qRun, qFoldl_maxParallel]
  rfl

/-- **C2.** In every interleaving of enqueue calls and job completions
against a processor configured with `maxParallelJobs = N`, the
`activeJobs` counter never exceeds `N`; and whenever a request is waiting
in the pending FIFO, all `N` slots are busy — admission is reattempted on
every completion, so no slot stays idle while a request waits. -/
theorem aiQueue_active_bounded (N : ℕ) (evs : List QEvent) :
    (qRun (qInit N) evs).active ≤ N ∧
    ((qRun (qInit N) evs).pending ≠ [] → (qRun (qInit N) evs).active = N) := by
  obtain ⟨h1, h2, _⟩ := qInv_qRun N evs
  rw [qRun_maxParallel N evs] at h1 h2
  exact ⟨h1, h2⟩

theorem aiQueue_active_bounded_witness :
    (qRun (qInit 1) [QEvent.enq, QEvent.enq]).pending ≠ [] ∧
    (qRun (qInit 1) [QEvent.enq, QEvent.enq]).active = 1 :=
  ⟨by decide, (aiQueue_active_bounded 1 [QEvent.enq, QEvent.enq]).2 (by decide)⟩

/-- **C7.** Strict FIFO dispatch: in every reachable state of the
generation queue, the admission history followed by the pending FIFO is
exactly the submission order `0, 1, …, nextId - 1`; hence the history
itself is the initial segment of the submission order (the i-th job
admitted is the i-th job submitted), and whenever a job `B` has been
admitted, every job `A` submitted strictly before `B` was already
admitted. -/
theorem aiQueue_fifo (N : ℕ) (evs : List QEvent) :
    (qRun (qInit N) evs).admitted ++ (qRun (qInit N) evs).pending
        = List.range (qRun (qInit N) evs).nextId ∧
    (qRun (qInit N) evs).admitted
        = List.range (qRun (qInit N) evs).admitted.length ∧
    (∀ A B : ℕ, A < B → B ∈ (qRun (qInit N) evs).admitted →
      A ∈ (qRun (qInit N) evs).admitted) := by
  obtain ⟨-, -, h3⟩ := qInv_qRun N evs
  have hlen : (qRun (qInit N) evs).admitted.length
      ≤ (qRun (qInit N) evs).nextId := by
    have := congrArg List.length h3
    simp [List.length_append, List.length_range] at this
    omega
  have hseg : (qRun (qInit N) evs).admitted
      = List.range (qRun (qInit N) evs).admitted.length := by
    have htake := congrArg
      (fun l => List.take (qRun (qInit N) evs).admitted.length l) h3
    simpa [List.take_left, List.take_range, Nat.min_eq_left hlen] using htake
  refine ⟨h3, hseg, ?_⟩
  intro A B hAB hB
  rw [hseg] at hB ⊢
  rw [List.mem_range] at hB ⊢
  omega

theorem aiQueue_fifo_witness :
    (0 : ℕ) < 1 ∧ 1 ∈ (qRun (qInit 2) [QEvent.enq, QEvent.enq]).admitted ∧
    0 ∈ (qRun (qInit 2) [QEvent.enq, QEvent.enq]).admitted :=
  ⟨by decide, by decide,
    (aiQueue_fifo 2 [QEvent.enq, QEvent.enq]).2.2 0 1 (by decide) (by decide)⟩

end Mirro.AI

namespace Mirro.AI

/-- **C1 (counterexample).** The claim "a sourceless request never
occupies a concurrency slot" is false on the code: the missing-source
check lives inside `generate`, which runs only after `processQueue` has
admitted the job and incremented `activeJobs`.  Enqueue a request with
neither `sourcePath` nor `base64` into a fresh processor with
`maxParallelJobs = 1`: the request (job 0) is admitted and the counter is
incremented on its behalf — while its processing still rejects with the
missing-source error. -/
theorem aiQueue_missing_source_occupies_slot :
    generate ⟨1, .Vogue⟩ (some 0) ⟨none, none, none, none, none, none⟩
        = .error .missingSource ∧
    (qStep (qInit 1) .enq).active = 1 ∧
    0 ∈ (qStep (qInit 1) .enq).admitted := by
  refine ⟨rfl, rfl, ?_⟩
  decide

/-- **C1 (amended).** A request with neither a `sourcePath` nor inline
base64 bytes is rejected with the missing-source error, but only after
flowing through the queue like any other job: the admission machinery
never inspects the request, so whenever a slot is free the request is
admitted and the active-job counter is incremented on its behalf before
the rejection (the slot is released on completion like any other job). -/
theorem aiQueue_missing_source_rejected (opts : AIProcessorOptions)
    (load : Option ℕ) (r : AIJobRequest)
    (hs : r.sourcePath = none) (hb : r.base64 = none) :
    generate opts load r = .error .missingSource ∧
    (∀ s : QState, s.active < s.maxParallel → s.pending = [] →
      (enqueueStep s).active = s.active + 1 ∧
      (enqueueStep s).admitted = s.admitted ++ [s.nextId]) := by
  constructor
  · unfold generate
    rw [hs, hb]
    rfl
  · intro s h1 h2
    unfold enqueueStep processQueue
    dsimp only
    rw [if_neg (by omega), h2]
    simp

theorem aiQueue_missing_source_rejected_witness :
    generate ⟨1, .Vogue⟩ (some 0) ⟨none, none, none, none, none, none⟩
        = .error .missingSource ∧
    (enqueueStep (qInit 1)).active = 0 + 1 := by
  refine ⟨(aiQueue_missing_source_rejected ⟨1, .Vogue⟩ (some 0)
    ⟨none, none, none, none, none, none⟩ rfl rfl).1, ?_⟩
  exact ((aiQueue_missing_source_rejected ⟨1, .Vogue⟩ (some 0)
    ⟨none, none, none, none, none, none⟩ rfl rfl).2 (qInit 1)
    (by decide) rfl).1

/-- **C5.** The per-variation perturbation factor the pipeline applies is
exactly `1 + ((i * 13) mod 7) / 20`, and the whole parameter set
(saturation, brightness, contrast/linear, gamma, blur, tint, post effect,
watermark) is a pure function of (style, intensity, variation index,
prompt): two runs with identical inputs produce identical parameters. -/
theorem applyStyle_variation_factor (style : StyleType) (intensity : ℚ)
    (i : ℕ) (prompt : Option String) :
    (applyStyle style intensity i prompt).variationFactor
        = 1 + (((i * 13) % 7 : ℕ) : ℚ) / 20 ∧
    (∀ (style2 : StyleType) (intensity2 : ℚ) (i2 : ℕ) (prompt2 : Option String),
      style = style2 → intensity = intensity2 → i = i2 → prompt = prompt2 →
      applyStyle style intensity i prompt
        = applyStyle style2 intensity2 i2 prompt2) := by
  refine ⟨rfl, ?_⟩
  rintro s2 n2 v2 p2 rfl rfl rfl rfl
  rfl

theorem applyStyle_variation_factor_witness :
    (applyStyle .Cartoon (7/10) 3 none).variationFactor
        = 1 + (((3 * 13) % 7 : ℕ) : ℚ) / 20 ∧
    applyStyle .Cartoon (7/10) 3 none = applyStyle .Cartoon (7/10) 3 none :=
  ⟨(applyStyle_variation_factor .Cartoon (7/10) 3 none).1,
   (applyStyle_variation_factor .Cartoon (7/10) 3 none).2
     .Cartoon (7/10) 3 none rfl rfl rfl rfl⟩

/-- **C6.** For every request that passes the source check and whose
source loads, the effective variation count is the requested value
clamped into [1,5] (default 1, 0 ↦ 1, 10 ↦ 5), the effective intensity is
the requested value clamped into [0,1] (default 0.7, -1 ↦ 0, 2 ↦ 1), and
the number of outputs and of previews both equal the clamped variation
count. -/
theorem generate_clamps_and_counts (opts : AIProcessorOptions)
    (load : Option ℕ) (r : AIJobRequest)
    (hsrc : (r.sourcePath.isNone && r.base64.isNone) = false)
    (hload : load.isSome = true) :
    (generate opts load r).map
        (fun out => (out.outputs.length, out.previews.length))
      = .ok ((effVariations r).toNat, (effVariations r).toNat) ∧
    1 ≤ effVariations r ∧ effVariations r ≤ 5 ∧
    0 ≤ effIntensity r ∧ effIntensity r ≤ 1 ∧
    (r.variations = none → effVariations r = 1) ∧
    (r.variations = some 0 → effVariations r = 1) ∧
    (r.variations = some 10 → effVariations r = 5) ∧
    (r.intensity = none → effIntensity r = 70/100) ∧
    (r.intensity = some (-1) → effIntensity r = 0) ∧
    (r.intensity = some 2 → effIntensity r = 1) := by
  obtain ⟨b, rfl⟩ := Option.isSome_iff_exists.mp hload
  refine ⟨?_, ?_, ?_, ?_, ?_, ?_, ?_, ?_, ?_, ?_, ?_⟩
  · unfold generate
    rw [hsrc]
    simp [Except.map, List.length_map, List.length_range]
  · exact le_max_left 1 _
  · exact max_le (by norm_num) (min_le_left 5 _)
  · exact le_min zero_le_one (le_max_left 0 _)
  · exact min_le_left 1 _
  · intro hv; unfold effVariations; rw [hv]; decide
  · intro hv; unfold effVariations; rw [hv]; decide
  · intro hv; unfold effVariations; rw [hv]; decide
  · intro hv; unfold effIntensity; rw [hv]; norm_num [min_def, max_def]
  · intro hv; unfold effIntensity; rw [hv]; norm_num [min_def, max_def]
  · intro hv; unfold effIntensity; rw [hv]; norm_num [min_def, max_def]

theorem generate_clamps_and_counts_witness :
    effVariations ⟨none, some "d", none, some .Cartoon, some 2, some 10⟩ = 5 ∧
    effIntensity ⟨none, some "d", none, some .Cartoon, some 2, some 10⟩ = 1 ∧
    (generate ⟨1, .Vogue⟩ (some 0)
        ⟨none, some "d", none, some .Cartoon, some 2, some 10⟩).map
      (fun out => (out.outputs.length, out.previews.length)) = .ok (5, 5) := by
  obtain ⟨hmap, -, -, -, -, -, -, hv10, -, -, hI2⟩ :=
    generate_clamps_and_counts ⟨1, .Vogue⟩ (some 0)
      ⟨none, some "d", none, some .Cartoon, some 2, some 10⟩ (by decide) (by decide)
  refine ⟨hv10 rfl, hI2 rfl, ?_⟩
  rw [hv10 rfl] at hmap
  exact hmap

end Mirro.AI

namespace Mirro.Printer

theorem processJob_file_missing (R : ℕ) (d : Except SpawnFailure Unit)
    {j : PJob} (hf : j.fileOk = false) :
    processJob R d j
      = ({ j with status := .error, error := some .fileNotFound }, false) := by
  unfold processJob
  dsimp only
  rw [hf]
  simp

theorem processJob_dispatch_ok (R : ℕ) {j : PJob} (hf : j.fileOk = true) :
    processJob R (.ok ()) j
      = ({ j with status := .completed, error := none }, false) := by
  unfold processJob
  dsimp only
  rw [hf]
  simp

theorem processJob_dispatch_fails (R : ℕ) (eSp : SpawnFailure) {j : PJob}
    (hf : j.fileOk = true) :
    processJob R (.error eSp) j =
      if j.attempts + 1 ≤ R then
        ({ j with status := .queued
                  attempts := j.attempts + 1
                  error := some (.dispatch eSp) }, true)
      else
        ({ j with status := .error
                  attempts := j.attempts + 1
                  error := some (.dispatch eSp) }, false) := by
  unfold processJob
  dsimp only
  rw [hf]
  simp only [Bool.true_eq_false, if_false]

theorem drain_always_fails (R : ℕ) (e : ℕ → SpawnFailure) :
    ∀ (fuel : ℕ) (j : PJob) (k : ℕ), j.fileOk = true →
      j.attempts ≤ R → R + 1 - j.attempts ≤ fuel →
      (drain R (fun n => .error (e n)) j k fuel).1 = R + 1 - j.attempts ∧
      (drain R (fun n => .error (e n)) j k fuel).2.status = .error ∧
      (drain R (fun n => .error (e n)) j k fuel).2.attempts = R + 1 := by
  intro fuel
  induction fuel with
  | zero =>
    intro j k hf ha hle
    omega
  | succ fuel ih =>
    intro j k hf ha hle
    simp only [drain]
    rw [processJob_dispatch_fails R (e k) hf]
    by_cases hR : j.attempts + 1 ≤ R
    · rw [if_pos hR]
      dsimp only
      obtain ⟨ih1, ih2, ih3⟩ := ih
        { j with status := .queued
                 attempts := j.attempts + 1
                 error := some (.dispatch (e k)) } (k + 1) hf hR
        (by show R + 1 - (j.attempts + 1) ≤ fuel; omega)
      refine ⟨?_, ih2, ih3⟩
      rw [ih1]
      show R + 1 - (j.attempts + 1) + 1 = R + 1 - j.attempts
      omega
    · rw [if_neg hR]
      refine ⟨?_, rfl, ?_⟩
      · show (1 : ℕ) = R + 1 - j.attempts
        omega
      · show j.attempts + 1 = R + 1
        omega

theorem processJob_attempts_le (R : ℕ) (d : Except SpawnFailure Unit)
    (j : PJob) :
    (processJob R d j).1.attempts ≤ j.attempts + 1 ∧
    ((processJob R d j).2 = true → (processJob R d j).1.attempts ≤ R) := by
  rcases hfo : j.fileOk with _ | _
  · rw [processJob_file_missing R d hfo]
    exact ⟨Nat.le_succ _, fun hc => absurd hc (by simp)⟩
  · rcases d with e | u
    · rw [processJob_dispatch_fails R e hfo]
      split_ifs with h
      · exact ⟨Nat.le_refl _, fun _ => h⟩
      · exact ⟨Nat.le_refl _, fun hc => absurd hc (by simp)⟩
    · rw [processJob_dispatch_ok R hfo]
      exact ⟨Nat.le_succ _, fun hc => absurd hc (by simp)⟩

/-- Inductive invariant of the whole print queue: every job still pending
has consumed at most `R` attempts, and every job ever processed has
consumed at most `R + 1`. -/
def PQInv (R : ℕ) (s : PQState) : Prop :=
  (∀ jb ∈ s.pending, jb.attempts ≤ R) ∧
  (∀ jb ∈ s.settled, jb.attempts ≤ R + 1)

theorem pqInv_step (R : ℕ) {s : PQState} (h : PQInv R s) (ev : PQEvent) :
    PQInv R (pqStep R s ev) := by
  obtain ⟨h1, h2⟩ := h
  cases ev with
  | enq fileOk =>
    refine ⟨?_, h2⟩
    intro jb hjb
    simp only [pqStep, List.mem_append, List.mem_singleton] at hjb
    rcases hjb with hjb | rfl
    · exact h1 jb hjb
    · exact Nat.zero_le _
  | proc d =>
    rcases hp : s.pending with _ | ⟨j, rest⟩
    · simpa [pqStep, hp] using ⟨h1, h2⟩
    · have hj : j.attempts ≤ R := h1 j (by rw [hp]; exact List.mem_cons_self j rest)
      obtain ⟨hle, hreq⟩ := processJob_attempts_le R d j
      simp only [pqStep, hp]
      split_ifs with hrq
      · refine ⟨?_, h2⟩
        intro jb hjb
        simp only [List.mem_append, List.mem_singleton] at hjb
        rcases hjb with hjb | rfl
        · exact h1 jb (by rw [hp]; exact List.mem_cons_of_mem j hjb)
        · exact hreq hrq
      · refine ⟨?_, ?_⟩
        · intro jb hjb
          exact h1 jb (by rw [hp]; exact List.mem_cons_of_mem j hjb)
        · intro jb hjb
          simp only [List.mem_append, List.mem_singleton] at hjb
          rcases hjb with hjb | rfl
          · exact h2 jb hjb
          · omega

theorem pqInv_run (R : ℕ) (evs : List PQEvent) : PQInv R (pqRun R evs) := by
  rw [pqRun]
  have : ∀ s : PQState, PQInv R s → PQInv R (evs.foldl (pqStep R) s) := by
    induction evs with
    | nil => exact fun s h => h
    | cons ev evs ih => exact fun s h => ih _ (pqInv_step R h ev)
  exact this ⟨[], []⟩ ⟨by simp, by simp⟩

end Mirro.Printer

namespace Mirro.Printer

/-- **C3.** With `queueRetries = R`, a job whose file exists and whose
dispatch always fails makes exactly `R + 1` passes through
`queued → printing` (one per `processJob` call) before settling in
terminal `error` with `attempts = R + 1`; and in every reachable state of
the print queue, pending jobs have at most `R` attempts, every job ever
processed has at most `R + 1`, and a job whose attempts exceed `R` is
never requeued by `processJob`. -/
theorem printQueue_retry_bound (R : ℕ) (e : ℕ → SpawnFailure) (j : PJob)
    (k fuel : ℕ) (hf : j.fileOk = true) (hq : j.attempts = 0)
    (hfuel : R + 1 ≤ fuel) (evs : List PQEvent) :
    (drain R (fun n => .error (e n)) j k fuel).1 = R + 1 ∧
    (drain R (fun n => .error (e n)) j k fuel).2.status = .error ∧
    (drain R (fun n => .error (e n)) j k fuel).2.attempts = R + 1 ∧
    (∀ jb ∈ (pqRun R evs).pending, jb.attempts ≤ R) ∧
    (∀ jb ∈ (pqRun R evs).settled, jb.attempts ≤ R + 1) ∧
    (∀ (d : Except SpawnFailure Unit) (jb : PJob),
      R < jb.attempts → (processJob R d jb).2 = false) := by
  obtain ⟨h1, h2, h3⟩ :=
    drain_always_fails R e fuel j k hf (by omega) (by omega)
  obtain ⟨h4, h5⟩ := pqInv_run R evs
  refine ⟨by rw [h1, hq]; omega, h2, h3, h4, h5, ?_⟩
  intro d jb hgt
  rcases hfo : jb.fileOk with _ | _
  · rw [processJob_file_missing R d hfo]
  · rcases d with eSp | u
    · rw [processJob_dispatch_fails R eSp hfo]
      rw [if_neg (by omega)]
    · rw [processJob_dispatch_ok R hfo]

theorem printQueue_retry_bound_witness :
    (drain 2 (fun n => .error ((fun _ => SpawnFailure.nonZeroExit (some 1)) n))
        (freshJob true) 0 3).1 = 3 ∧
    (drain 2 (fun n => .error ((fun _ => SpawnFailure.nonZeroExit (some 1)) n))
        (freshJob true) 0 3).2.status = .error ∧
    (drain 2 (fun n => .error ((fun _ => SpawnFailure.nonZeroExit (some 1)) n))
        (freshJob true) 0 3).2.attempts = 3 := by
  obtain ⟨h1, h2, h3, -, -, -⟩ := printQueue_retry_bound 2
    (fun _ => SpawnFailure.nonZeroExit (some 1)) (freshJob true) 0 3 rfl rfl
    (by omega) []
  exact ⟨h1, h2, h3⟩

/-- **C4.** A job whose file does not exist at processing time goes
straight from `printing` to terminal `error` with message `File not
found`; its attempts stay 0, it is not requeued, and the dispatch outcome
is never consulted: the result is identical for every dispatch
outcome. -/
theorem printQueue_missing_file (R : ℕ) (d d2 : Except SpawnFailure Unit)
    (j : PJob) (hf : j.fileOk = false) (ha : j.attempts = 0) :
    processJob R d j
      = ({ j with status := .error, error := some .fileNotFound }, false) ∧
    (processJob R d j).1.attempts = 0 ∧
    (processJob R d j).2 = false ∧
    processJob R d j = processJob R d2 j := by
  have h := processJob_file_missing R d hf
  have h2 := processJob_file_missing R d2 hf
  refine ⟨h, ?_, ?_, ?_⟩
  · rw [h]
    exact ha
  · rw [h]
  · rw [h, h2]

theorem printQueue_missing_file_witness :
    processJob 2 (.ok ()) (freshJob false)
      = ({ freshJob false with status := .error, error := some .fileNotFound }, false) ∧
    (processJob 2 (.ok ()) (freshJob false)).1.attempts = 0 ∧
    (processJob 2 (.ok ()) (freshJob false)).2 = false ∧
    processJob 2 (.ok ()) (freshJob false)
      = processJob 2 (.error (.nonZeroExit none)) (freshJob false) :=
  printQueue_missing_file 2 (.ok ()) (.error (.nonZeroExit none))
    (freshJob false) rfl rfl

/-- **C8.** A dispatch whose child process emits an `error` event with
errno code ENOENT (print binary entirely absent) is treated as success:
the job reaches `completed` and its attempt count is unchanged.  Exit
code 0 is the only successful exit; any other exit code and any other
spawn error are dispatch failures. -/
theorem printQueue_enoent_success (R : ℕ) (j : PJob) (hf : j.fileOk = true) :
    spawnCommand (.errored (some "ENOENT")) = .ok () ∧
    processJob R (spawnCommand (.errored (some "ENOENT"))) j
      = ({ j with status := .completed, error := none }, false) ∧
    (processJob R (spawnCommand (.errored (some "ENOENT"))) j).1.attempts
      = j.attempts ∧
    spawnCommand (.exited (some 0)) = .ok () ∧
    (∀ c : Option ℤ, c ≠ some 0 →
      spawnCommand (.exited c) = .error (.nonZeroExit c)) ∧
    (∀ c : Option String, c ≠ some "ENOENT" →
      spawnCommand (.errored c) = .error (.spawnError c)) := by
  have hsp : spawnCommand (.errored (some "ENOENT")) = .ok () := by
    unfold spawnCommand
    simp
  refine ⟨hsp, ?_, ?_, ?_, ?_, ?_⟩
  · rw [hsp, processJob_dispatch_ok R hf]
  · rw [hsp, processJob_dispatch_ok R hf]
  · unfold spawnCommand
    simp
  · intro c hc
    unfold spawnCommand
    dsimp only
    rw [if_neg hc]
  · intro c hc
    unfold spawnCommand
    dsimp only
    rw [if_neg hc]

theorem printQueue_enoent_success_witness :
    spawnCommand (.errored (some "ENOENT")) = .ok () ∧
    processJob 2 (spawnCommand (.errored (some "ENOENT"))) (freshJob true)
      = ({ freshJob true with status := .completed, error := none }, false) ∧
    spawnCommand (.exited (some 1)) = .error (.nonZeroExit (some 1)) ∧
    spawnCommand (.errored (some "EACCES"))
      = .error (.spawnError (some "EACCES")) := by
  obtain ⟨h1, h2, -, -, h5, h6⟩ := printQueue_enoent_success 2 (freshJob true) rfl
  exact ⟨h1, h2, h5 (some 1) (by decide), h6 (some "EACCES") (by decide)⟩

end Mirro.Printer

namespace Mirro.Camera

theorem getLatestFrame_preserves (fetch : Option ℕ) (s : CamState) :
    (getLatestFrame fetch s).2.timerOn = s.timerOn ∧
    (getLatestFrame fetch s).2.tickFetches = s.tickFetches ∧
    (getLatestFrame fetch s).2.subscribers = s.subscribers := by
  unfold getLatestFrame
  rcases hl : s.latestFrame with _ | f
  · rcases fetch with _ | b
    · exact ⟨rfl, rfl, rfl⟩
    · exact ⟨rfl, rfl, rfl⟩
  · exact ⟨rfl, rfl, rfl⟩

theorem camStep_no_restart_timer {s : CamState} (ht : s.timerOn = false)
    {ev : CamEvent} (hev : ev.restartsLiveView = false) :
    (camStep s ev).timerOn = false ∧
    (camStep s ev).tickFetches = s.tickFetches := by
  cases ev with
  | connect => simp [CamEvent.restartsLiveView] at hev
  | disconnect =>
    unfold camStep
    dsimp only
    split_ifs with h1 h2
    · exact ⟨ht, rfl⟩
    · exact ⟨rfl, rfl⟩
    · exact ⟨ht, rfl⟩
  | tick f =>
    unfold camStep
    simp [ht]
  | captureReq b f => simp [CamEvent.restartsLiveView] at hev
  | getLive f =>
    obtain ⟨hT, hF, -⟩ := getLatestFrame_preserves f s
    unfold camStep
    constructor
    · rw [hT]
      exact ht
    · exact hF
  | shutdown => exact ⟨rfl, rfl⟩

theorem camRun_timer_stays_off :
    ∀ (evs : List CamEvent) (s : CamState), s.timerOn = false →
      (∀ ev ∈ evs, ev.restartsLiveView = false) →
      (camRun s evs).timerOn = false ∧
      (camRun s evs).tickFetches = s.tickFetches := by
  intro evs
  induction evs with
  | nil => exact fun s ht _ => ⟨ht, rfl⟩
  | cons ev evs ih =>
    intro s ht hevs
    rw [camRun, List.foldl_cons, ← camRun]
    obtain ⟨h1, h2⟩ :=
      camStep_no_restart_timer ht (hevs ev (List.mem_cons_self ev evs))
    obtain ⟨h3, h4⟩ :=
      ih (camStep s ev) h1 (fun e he => hevs e (List.mem_cons_of_mem ev he))
    exact ⟨h3, by rw [h4, h2]⟩

/-- **C9.** When the last live-view subscriber disconnects, the wiring
stops the interval: immediately after the disconnect the timer is off,
and along any continuation containing no new connection and no capture
request the timer stays off and the periodic tick performs no further
driver frame fetch.  (On-demand fetches by `getLatestFrame` are counted
separately; they are the subject of C10.) -/
theorem camera_refcount_stops_ticks (s : CamState) (evs : List CamEvent)
    (hone : s.subscribers = 1)
    (hevs : ∀ ev ∈ evs, ev.restartsLiveView = false) :
    (camStep s .disconnect).timerOn = false ∧
    (camRun (camStep s .disconnect) evs).timerOn = false ∧
    (camRun (camStep s .disconnect) evs).tickFetches
      = (camStep s .disconnect).tickFetches := by
  have ht : (camStep s .disconnect).timerOn = false := by
    unfold camStep
    dsimp only
    rw [if_neg (show ¬s.subscribers = 0 by omega)]
    rw [if_pos (show s.subscribers - 1 = 0 by omega)]
    rfl
  obtain ⟨h1, h2⟩ := camRun_timer_stays_off evs (camStep s .disconnect) ht hevs
  exact ⟨ht, h1, h2⟩

theorem camera_refcount_stops_ticks_witness :
    (camStep ⟨1, true, true, none, 5, 0⟩ .disconnect).timerOn = false ∧
    (camRun (camStep ⟨1, true, true, none, 5, 0⟩ .disconnect)
        [.tick (some 9), .getLive none, .shutdown]).tickFetches
      = (camStep ⟨1, true, true, none, 5, 0⟩ .disconnect).tickFetches := by
  obtain ⟨h1, -, h3⟩ := camera_refcount_stops_ticks ⟨1, true, true, none, 5, 0⟩
    [.tick (some 9), .getLive none, .shutdown] rfl (by decide)
  exact ⟨h1, h3⟩

/-- **C10.** `getLatestFrame`: when a cached frame exists it is returned
as-is with no driver call and no state change, whatever the live-view or
subscriber state; when the cache is empty the driver is consulted exactly
once — even with zero subscribers and live view never started — and on
success the frame is cached and returned, while on failure the call
returns `none` and the cache stays empty. -/
theorem camera_getLatestFrame_spec (s : CamState) (fetch : Option ℕ) :
    (∀ f, s.latestFrame = some f → getLatestFrame fetch s = (some f, s)) ∧
    (s.latestFrame = none →
      ((getLatestFrame fetch s).2.demandFetches = s.demandFetches + 1 ∧
       (∀ b, fetch = some b →
          getLatestFrame fetch s
            = (some b, { s with latestFrame := some b
                                demandFetches := s.demandFetches + 1 })) ∧
       (fetch = none →
          getLatestFrame fetch s
            = (none, { s with demandFetches := s.demandFetches + 1 })))) := by
  constructor
  · intro f hf
    unfold getLatestFrame
    rw [hf]
  · intro hn
    unfold getLatestFrame
    rw [hn]
    refine ⟨?_, ?_, ?_⟩
    · cases fetch <;> rfl
    · intro b hb
      rw [hb]
    · intro hb
      rw [hb]

theorem camera_getLatestFrame_spec_witness :
    getLatestFrame (some 5) ⟨0, false, false, none, 0, 0⟩
      = (some 5, ⟨0, false, false, some 5, 0, 1⟩) ∧
    getLatestFrame none ⟨0, false, false, some 7, 3, 4⟩
      = (some 7, ⟨0, false, false, some 7, 3, 4⟩) := by
  constructor
  · exact ((camera_getLatestFrame_spec ⟨0, false, false, none, 0, 0⟩
      (some 5)).2 rfl).2.1 5 rfl
  · exact (camera_getLatestFrame_spec ⟨0, false, false, some 7, 3, 4⟩
      none).1 7 rfl

end Mirro.Camera
